/-
Verification of the affine/orientation core of the medio repository.

Shallow embedding of:
  - medio/utils/two_way_dict.py   (TwoWayDict)
  - medio/metadata/itk_orientation.py (axis codes, orientation code packing, table)
  - medio/metadata/convert_nib_itk.py (axis inversion, affine conversion)
  - medio/metadata/affine.py      (Affine: matrix + cached direction/spacing)

Python dicts are modelled as insertion-ordered association lists with unique
keys; Python exceptions (KeyError, AttributeError, ValueError) are modelled by
an explicit error type in Except.  Real-number arithmetic stands in for numpy
floats; where numpy division by zero yields inf/nan without raising, the
embedding's real division yields 0 — in both semantics no exception is raised,
which is what the claims about failure behaviour turn on.
-/
import Mathlib

set_option maxRecDepth 100000

/-- Python exceptions raised by the modelled code. -/
inductive PyErr where
  | keyError
  | attributeError
  | valueError
deriving DecidableEq, Repr

deriving instance DecidableEq for Except

/-- `TwoWayDict` from medio/utils/two_way_dict.py: a Python dict (ordered
association list) holding key-value together with value-key pairs. -/
abbrev TwoWayDict (α : Type) : Type := List (α × α)

/-- The empty dict. -/
def TwoWayDict.empty (α : Type) : TwoWayDict α := []

/-- Python `key in self`: membership among the dict's keys. -/
def TwoWayDict.memKey {α : Type} [DecidableEq α] : TwoWayDict α → α → Bool
  | [], _ => false
  | (a, _) :: t, k => a = k || TwoWayDict.memKey t k

/-- Python `self[key]` as an Option: value of the first (unique) entry with
this key, `none` when absent. -/
def TwoWayDict.getVal {α : Type} [DecidableEq α] : TwoWayDict α → α → Option α
  | [], _ => none
  | (a, b) :: t, k => if a = k then some b else TwoWayDict.getVal t k

/-- Python `self[key]`: raises `KeyError` when the key is absent. -/
def TwoWayDict.get {α : Type} [DecidableEq α] (d : TwoWayDict α) (k : α) :
    Except PyErr α :=
  match TwoWayDict.getVal d k with
  | some v => .ok v
  | none => .error .keyError

/-- Python `dict.__setitem__`: replace the value in place when the key exists,
append a new entry otherwise. -/
def TwoWayDict.rawSet {α : Type} [DecidableEq α] :
    TwoWayDict α → α → α → TwoWayDict α
  | [], k, v => [(k, v)]
  | (a, b) :: t, k, v =>
    if a = k then (a, v) :: t else (a, b) :: TwoWayDict.rawSet t k v

/-- Python `dict.__delitem__`: remove the entry with this key, `KeyError` when
absent. -/
def TwoWayDict.rawDel {α : Type} [DecidableEq α] :
    TwoWayDict α → α → Except PyErr (TwoWayDict α)
  | [], _ => .error .keyError
  | (a, b) :: t, k =>
    if a = k then .ok t
    else (TwoWayDict.rawDel t k).map (fun t2 => (a, b) :: t2)

/-- `TwoWayDict.__delitem__`: `dict.__delitem__(self, self[key])` then
`dict.__delitem__(self, key)` — the lookup or either raw delete may raise
`KeyError`, which propagates. -/
def TwoWayDict.delItem {α : Type} [DecidableEq α] (d : TwoWayDict α) (k : α) :
    Except PyErr (TwoWayDict α) :=
  Except.bind (TwoWayDict.get d k) (fun v =>
    Except.bind (TwoWayDict.rawDel d v) (fun d1 =>
      TwoWayDict.rawDel d1 k))

/-- `TwoWayDict.__setitem__`: first delete any mapping for the key, then (on
the updated dict) any mapping for the value, then insert both directions; an
exception from either delete propagates. -/
def TwoWayDict.setItem {α : Type} [DecidableEq α] (d : TwoWayDict α)
    (k v : α) : Except PyErr (TwoWayDict α) :=
  Except.bind
    (if TwoWayDict.memKey d k then TwoWayDict.delItem d k else .ok d)
    (fun d1 =>
      Except.bind
        (if TwoWayDict.memKey d1 v then TwoWayDict.delItem d1 v else .ok d1)
        (fun d2 =>
          .ok (TwoWayDict.rawSet (TwoWayDict.rawSet d2 k v) v k)))

/-- `TwoWayDict.__len__`: number of connections, the raw dict length
floor-divided by 2. -/
def TwoWayDict.len {α : Type} (d : TwoWayDict α) : ℕ :=
  List.length d / 2

/-- Raw number of stored entries of the underlying dict. -/
def TwoWayDict.rawLen {α : Type} (d : TwoWayDict α) : ℕ :=
  List.length d

/-- Python dict invariant: keys are unique. -/
def keysNodup {α : Type} (d : TwoWayDict α) : Prop :=
  (d.map Prod.fst).Nodup

instance {α : Type} [DecidableEq α] (d : TwoWayDict α) :
    Decidable (keysNodup d) :=
  inferInstanceAs (Decidable ((d.map Prod.fst).Nodup))

/-- State invariant of a TwoWayDict: unique keys and symmetric entries
(every stored value maps back to its key). -/
def twoWayInv {α : Type} [DecidableEq α] (d : TwoWayDict α) : Prop :=
  keysNodup d ∧ ∀ p ∈ d, TwoWayDict.getVal d p.2 = some p.1

instance {α : Type} [DecidableEq α] (d : TwoWayDict α) :
    Decidable (twoWayInv d) :=
  inferInstanceAs
    (Decidable (keysNodup d ∧ ∀ p ∈ d, TwoWayDict.getVal d p.2 = some p.1))

/-- `getattr(AxCodes, axis)` for a single-character axis name:
R=2, L=3, P=4, A=5, I=8, S=9 from the `AxCodes` IntEnum; any other character
has no attribute (Python raises `AttributeError`). -/
def getattrAxCodes (c : Char) : Option ℕ :=
  if c = 'R' then some 2
  else if c = 'L' then some 3
  else if c = 'P' then some 4
  else if c = 'A' then some 5
  else if c = 'I' then some 8
  else if c = 'S' then some 9
  else none

/-- The list comprehension `[getattr(AxCodes, axis) for axis in ax_code]`:
evaluates left to right, the first missing attribute aborts the whole list. -/
def lookupAxCodes : List Char → Option (List ℕ)
  | [] => some []
  | c :: t => do
    let n ← getattrAxCodes c
    let t2 ← lookupAxCodes t
    some (n :: t2)

/-- `itk_orientation_code` from medio/metadata/itk_orientation.py: look up the
axis value of every letter (first missing attribute raises AttributeError),
unpack into exactly three values (otherwise Python's unpacking raises
`ValueError`), and pack with the `AxMajorness` shifts Primary=0, Secondary=8,
Tertiary=16. -/
def itk_orientation_code (ax : List Char) : Except PyErr ℕ :=
  match lookupAxCodes ax with
  | none => .error .attributeError
  | some [p, s, t] => .ok ((p <<< 0) + (s <<< 8) + (t <<< 16))
  | some _ => .error .valueError

/-- `_prods`: itertools.product(("R","L"), ("A","P"), ("I","S")), leftmost
factor slowest. -/
def _prods : List (Char × Char × Char) :=
  (['R', 'L']).flatMap (fun a =>
    (['A', 'P']).flatMap (fun b =>
      (['I', 'S']).map (fun c => (a, b, c))))

/-- itertools.permutations of a 3-tuple, in itertools order. -/
def perms3 : Char × Char × Char → List (List Char)
  | (a, b, c) => [[a, b, c], [a, c, b], [b, a, c], [b, c, a], [c, a, b], [c, b, a]]

/-- `_ax_codes_iter`: chain(*map(permutations, _prods)) — the 48 valid
orientation strings in generation order. -/
def _ax_codes_iter : List (List Char) :=
  _prods.flatMap perms3

/-- Keys of the module-level `codes_str_dict`: Python `None`, orientation
strings, and integer codes share one dict. -/
inductive OKey where
  | noneK
  | strK (s : List Char)
  | intK (n : ℕ)
deriving DecidableEq, Repr

/-- `codes_str_dict` construction from itk_orientation.py:
`codes_str_dict[None] = None`, then for every generated orientation string,
`codes_str_dict[ax_code_str] = itk_orientation_code(ax_code_str)`. -/
def codes_str_dict_e : Except PyErr (TwoWayDict OKey) := do
  let d0 ← TwoWayDict.setItem (TwoWayDict.empty OKey) OKey.noneK OKey.noneK
  _ax_codes_iter.foldlM (fun d s => do
    let code ← itk_orientation_code s
    TwoWayDict.setItem d (OKey.strK s) (OKey.intK code)) d0

/-- The module-level `codes_str_dict` (the build never raises, proved
below). -/
def codes_str_dict : TwoWayDict OKey :=
  (codes_str_dict_e.toOption).getD (TwoWayDict.empty OKey)

/-- A valid 3-letter orientation string as the claims describe it: length 3
with one letter from each of the opposing pairs {R,L}, {A,P}, {I,S}. -/
def validOrientationStr (s : List Char) : Prop :=
  s.length = 3 ∧ (∃ c ∈ s, c = 'R' ∨ c = 'L') ∧
    (∃ c ∈ s, c = 'A' ∨ c = 'P') ∧ (∃ c ∈ s, c = 'I' ∨ c = 'S')

instance (s : List Char) : Decidable (validOrientationStr s) :=
  inferInstanceAs (Decidable (_ ∧ _ ∧ _ ∧ _))

/-- `AXES_INV` from medio/metadata/convert_nib_itk.py, built by the three
module-level assignments `AXES_INV["R"] = "L"`, `AXES_INV["A"] = "P"`,
`AXES_INV["S"] = "I"`. -/
def AXES_INV_e : Except PyErr (TwoWayDict Char) := do
  let d1 ← TwoWayDict.setItem (TwoWayDict.empty Char) 'R' 'L'
  let d2 ← TwoWayDict.setItem d1 'A' 'P'
  TwoWayDict.setItem d2 'S' 'I'

/-- The module-level `AXES_INV` dict (the build never raises, proved below). -/
def AXES_INV : TwoWayDict Char :=
  (AXES_INV_e.toOption).getD (TwoWayDict.empty Char)

/-- The character loop of `inv_axcodes`: `new_axcodes += AXES_INV[code]` for
each character in order; a character missing from `AXES_INV` raises
`KeyError`. -/
def invChars : List Char → Except PyErr (List Char)
  | [] => .ok []
  | c :: t => do
    let c2 ← TwoWayDict.get AXES_INV c
    let t2 ← invChars t
    .ok (c2 :: t2)

/-- `inv_axcodes`: `None` passes through; otherwise each character is replaced
by `AXES_INV[code]`, in order. -/
def inv_axcodes (ax : Option (List Char)) : Except PyErr (Option (List Char)) :=
  match ax with
  | none => .ok none
  | some cs => (invChars cs).map some

/-- The six anatomical axis letters {R, L, A, P, I, S}. -/
def axLetters : List Char := ['R', 'L', 'A', 'P', 'I', 'S']

/-- An axcodes entry is `None` or a string over the six axis letters. -/
def validAxChars : Option (List Char) → Prop
  | none => True
  | some cs => ∀ c ∈ cs, c ∈ axLetters

instance instDecidableValidAxChars :
    (ax : Option (List Char)) → Decidable (validAxChars ax)
  | none => .isTrue trivial
  | some cs => List.decidableBAll _ cs

noncomputable section

open scoped Classical

/-- `CONVERT_AFF_MAT4 = np.diag([-1, -1, 1, 1])`. -/
def CONVERT_AFF_MAT4 : Matrix (Fin 4) (Fin 4) ℝ :=
  Matrix.diagonal ![-1, -1, 1, 1]

/-- `CONVERT_AFF_MAT3 = np.diag([-1, -1, 1])`. -/
def CONVERT_AFF_MAT3 : Matrix (Fin 3) (Fin 3) ℝ :=
  Matrix.diagonal ![-1, -1, 1]

/-- `convert_affine` on a 4×4 input (`shape[0] == 3` is false, so the 4×4
conversion matrix is left-multiplied). -/
def convert_affine4 (A : Matrix (Fin 4) (Fin 4) ℝ) : Matrix (Fin 4) (Fin 4) ℝ :=
  CONVERT_AFF_MAT4 * A

/-- `convert_affine` on a 3×3 input (`shape[0] == 3` selects the 3×3
conversion matrix). -/
def convert_affine3 (A : Matrix (Fin 3) (Fin 3) ℝ) : Matrix (Fin 3) (Fin 3) ℝ :=
  CONVERT_AFF_MAT3 * A

/-- The list comprehension `[inv_axcodes(axcode) for axcode in axcodes]`,
propagating the first `KeyError`. -/
def mapInvAxcodes : List (Option (List Char)) →
    Except PyErr (List (Option (List Char)))
  | [] => .ok []
  | a :: t => do
    let a2 ← inv_axcodes a
    let t2 ← mapInvAxcodes t
    .ok (a2 :: t2)

/-- `convert_nib_itk` on a 4×4 affine: converts the affine and maps
`inv_axcodes` over the axcodes list. -/
def convert_nib_itk4 (A : Matrix (Fin 4) (Fin 4) ℝ)
    (axcodes : List (Option (List Char))) :
    Except PyErr (Matrix (Fin 4) (Fin 4) ℝ × List (Option (List Char))) :=
  (mapInvAxcodes axcodes).map (fun newAxcodes => (convert_affine4 A, newAxcodes))

/-- The upper-left d×d block `affine[:-1, :-1]` (`Affine._m_key`). -/
def mBlock {d : ℕ} (A : Matrix (Fin (d + 1)) (Fin (d + 1)) ℝ) :
    Matrix (Fin d) (Fin d) ℝ :=
  fun i j => A i.castSucc j.castSucc

/-- Write the upper-left d×d block `affine[:-1, :-1] = B`, leaving the last
row and column untouched. -/
def setMBlock {d : ℕ} (A : Matrix (Fin (d + 1)) (Fin (d + 1)) ℝ)
    (B : Matrix (Fin d) (Fin d) ℝ) : Matrix (Fin (d + 1)) (Fin (d + 1)) ℝ :=
  fun i j =>
    if h : i.val < d ∧ j.val < d then B ⟨i.val, h.1⟩ ⟨j.val, h.2⟩ else A i j

/-- The origin column `affine[:-1, -1]` (`Affine._origin_key`). -/
def originOf {d : ℕ} (A : Matrix (Fin (d + 1)) (Fin (d + 1)) ℝ) :
    Fin d → ℝ :=
  fun i => A i.castSucc (Fin.last d)

/-- Write the origin column `affine[:-1, -1] = o`. -/
def setOriginCol {d : ℕ} (A : Matrix (Fin (d + 1)) (Fin (d + 1)) ℝ)
    (o : Fin d → ℝ) : Matrix (Fin (d + 1)) (Fin (d + 1)) ℝ :=
  fun i j =>
    if h : i.val < d ∧ j.val = d then o ⟨i.val, h.1⟩ else A i j

/-- `Affine.construct_affine(direction, spacing, origin)`: start from the
identity, write `direction @ diag(spacing)` into the block, then write the
origin column. -/
def construct_affine {d : ℕ} (direction : Matrix (Fin d) (Fin d) ℝ)
    (spacing : Fin d → ℝ) (origin : Fin d → ℝ) :
    Matrix (Fin (d + 1)) (Fin (d + 1)) ℝ :=
  setOriginCol (setMBlock 1 (direction * Matrix.diagonal spacing)) origin

/-- Euclidean norm of column `j` (`np.linalg.norm(..., axis=0)`). -/
def colNorm {d : ℕ} (B : Matrix (Fin d) (Fin d) ℝ) (j : Fin d) : ℝ :=
  Real.sqrt (∑ i, (B i j) ^ 2)

/-- `Affine.affine2spacing`: per-column Euclidean norm of the block
(`np.linalg.norm(affine[:-1, :-1] @ np.eye(dim), axis=0)`; the product with
the identity is the block itself). -/
def affine2spacing {d : ℕ} (A : Matrix (Fin (d + 1)) (Fin (d + 1)) ℝ) :
    Fin d → ℝ :=
  fun j => colNorm (mBlock A) j

/-- `Affine.affine2direction`: the block right-multiplied by
`np.diag(1 / spacing)` (elementwise reciprocal; numpy's division by zero
yields non-finite entries without raising, the embedding's yields 0 —
no exception either way). -/
def affine2direction {d : ℕ} (A : Matrix (Fin (d + 1)) (Fin (d + 1)) ℝ)
    (spacing : Fin d → ℝ) : Matrix (Fin d) (Fin d) ℝ :=
  mBlock A * Matrix.diagonal (fun j => 1 / spacing j)

/-- The `Affine` ndarray subclass: the raw matrix plus the cached `_spacing`
and `_direction` attributes set by `__init__`. -/
structure Affine (d : ℕ) where
  matrix : Matrix (Fin (d + 1)) (Fin (d + 1)) ℝ
  cachedSpacing : Fin d → ℝ
  cachedDirection : Matrix (Fin d) (Fin d) ℝ

/-- `Affine(affine)` — construction from a raw matrix: `__init__` computes
`_spacing = affine2spacing(self)` and
`_direction = affine2direction(self, self.spacing)`. -/
def Affine.fromMatrix {d : ℕ} (A : Matrix (Fin (d + 1)) (Fin (d + 1)) ℝ) :
    Affine d :=
  { matrix := A
    cachedSpacing := affine2spacing A
    cachedDirection := affine2direction A (affine2spacing A) }

/-- `Affine(direction=..., spacing=..., origin=...)` — construction from
components: `__new__` assembles `construct_affine`, and `__init__` stores
`_spacing = np.asarray(spacing)` and `_direction = np.asarray(direction)`
as given, without recomputation (and without `abs`). -/
def Affine.fromComps {d : ℕ} (direction : Matrix (Fin d) (Fin d) ℝ)
    (spacing : Fin d → ℝ) (origin : Fin d → ℝ) : Affine d :=
  { matrix := construct_affine direction spacing origin
    cachedSpacing := spacing
    cachedDirection := direction }

/-- The `spacing` property getter: returns the cached `_spacing`. -/
def Affine.spacing {d : ℕ} (a : Affine d) : Fin d → ℝ :=
  a.cachedSpacing

/-- The `direction` property getter: returns the cached `_direction`. -/
def Affine.direction {d : ℕ} (a : Affine d) : Matrix (Fin d) (Fin d) ℝ :=
  a.cachedDirection

/-- The `origin` property getter: reads `self[:-1, -1]`. -/
def Affine.origin {d : ℕ} (a : Affine d) : Fin d → ℝ :=
  originOf a.matrix

/-- The `spacing` setter: `_m_matrix ← _m_matrix @ diag(value / _spacing)`,
then `_spacing ← np.abs(value)`; `_direction` is not touched. -/
def Affine.setSpacing {d : ℕ} (a : Affine d) (value : Fin d → ℝ) : Affine d :=
  { matrix := setMBlock a.matrix
      (mBlock a.matrix * Matrix.diagonal (fun j => value j / a.cachedSpacing j))
    cachedSpacing := fun j => |value j|
    cachedDirection := a.cachedDirection }

/-- The `direction` setter: `_m_matrix ← value @ diag(spacing)`, then
`_direction ← value`; `_spacing` is not touched. -/
def Affine.setDirection {d : ℕ} (a : Affine d)
    (value : Matrix (Fin d) (Fin d) ℝ) : Affine d :=
  { matrix := setMBlock a.matrix (value * Matrix.diagonal a.cachedSpacing)
    cachedSpacing := a.cachedSpacing
    cachedDirection := value }

/-- The `origin` setter: `self[:-1, -1] = value`; the cached fields are not
touched. -/
def Affine.setOrigin {d : ℕ} (a : Affine d) (value : Fin d → ℝ) : Affine d :=
  { matrix := setOriginCol a.matrix value
    cachedSpacing := a.cachedSpacing
    cachedDirection := a.cachedDirection }

/-- `Affine.clone`: `Affine(self.copy())` — a fresh Affine constructed from a
copy of the raw matrix, so `__init__` recomputes the cached fields from the
matrix. -/
def Affine.clone {d : ℕ} (a : Affine d) : Affine d :=
  Affine.fromMatrix a.matrix

/-- Modelled from the spec: `from_matrix` as §4.3 describes it — "Fails with
`DegenerateAffine` if any column norm is zero (undefined direction)",
otherwise the column-norm decomposition.  This operation does not exist in
the source (no `DegenerateAffine` and no zero check appear anywhere in
medio/metadata/affine.py); it is the refinement target the claim asserts. -/
def fromMatrixSpec {d : ℕ} (A : Matrix (Fin (d + 1)) (Fin (d + 1)) ℝ) :
    Option (Affine d) :=
  if ∀ j, affine2spacing A j ≠ 0 then some (Affine.fromMatrix A) else none

/-! ### Block/origin accessor lemmas -/

theorem mBlock_setMBlock {d : ℕ} (A : Matrix (Fin (d + 1)) (Fin (d + 1)) ℝ)
    (B : Matrix (Fin d) (Fin d) ℝ) : mBlock (setMBlock A B) = B := by
  funext i j
  simp only [mBlock, setMBlock, Fin.coe_castSucc]
  rw [dif_pos ⟨i.isLt, j.isLt⟩]

theorem mBlock_setOriginCol {d : ℕ} (A : Matrix (Fin (d + 1)) (Fin (d + 1)) ℝ)
    (o : Fin d → ℝ) : mBlock (setOriginCol A o) = mBlock A := by
  funext i j
  simp only [mBlock, setOriginCol, Fin.coe_castSucc]
  rw [dif_neg]
  exact fun h => absurd h.2 (Nat.ne_of_lt j.isLt)

theorem originOf_setOriginCol {d : ℕ}
    (A : Matrix (Fin (d + 1)) (Fin (d + 1)) ℝ) (o : Fin d → ℝ) :
    originOf (setOriginCol A o) = o := by
  funext i
  simp only [originOf, setOriginCol, Fin.coe_castSucc]
  rw [dif_pos ⟨i.isLt, rfl⟩]

theorem originOf_setMBlock {d : ℕ}
    (A : Matrix (Fin (d + 1)) (Fin (d + 1)) ℝ) (B : Matrix (Fin d) (Fin d) ℝ) :
    originOf (setMBlock A B) = originOf A := by
  funext i
  simp only [originOf, setMBlock, Fin.coe_castSucc, Fin.val_last]
  rw [dif_neg]
  exact fun h => absurd h.2 (lt_irrefl d)

theorem mBlock_construct {d : ℕ} (direction : Matrix (Fin d) (Fin d) ℝ)
    (spacing origin : Fin d → ℝ) :
    mBlock (construct_affine direction spacing origin) =
      direction * Matrix.diagonal spacing := by
  unfold construct_affine
  rw [mBlock_setOriginCol, mBlock_setMBlock]

theorem originOf_construct {d : ℕ} (direction : Matrix (Fin d) (Fin d) ℝ)
    (spacing origin : Fin d → ℝ) :
    originOf (construct_affine direction spacing origin) = origin := by
  unfold construct_affine
  rw [originOf_setOriginCol]

theorem colNorm_diagonal {d : ℕ} (v : Fin d → ℝ) (j : Fin d) :
    colNorm (Matrix.diagonal v) j = |v j| := by
  unfold colNorm
  rw [show (∑ i, (Matrix.diagonal v i j) ^ 2) = (v j) ^ 2 from ?_,
    Real.sqrt_sq_eq_abs]
  rw [Finset.sum_eq_single j]
  · rw [Matrix.diagonal_apply_eq]
  · intro i _ hne
    rw [Matrix.diagonal_apply_ne _ hne]
    ring
  · intro h
    exact absurd (Finset.mem_univ j) h

theorem mBlock_diagonal {d : ℕ} (v : Fin (d + 1) → ℝ) :
    mBlock (Matrix.diagonal v) =
      Matrix.diagonal (fun i : Fin d => v i.castSucc) := by
  funext i j
  simp only [mBlock, Matrix.diagonal_apply, Fin.castSucc_inj]

theorem affine2spacing_diagonal {d : ℕ} (v : Fin (d + 1) → ℝ) :
    affine2spacing (Matrix.diagonal v) = fun j => |v j.castSucc| := by
  funext j
  unfold affine2spacing
  rw [mBlock_diagonal, colNorm_diagonal]

/-- Column-norm decomposition of an assembled matrix recovers orthonormal
direction and positive spacing exactly. -/
theorem decompose_construct {d : ℕ} (dir : Matrix (Fin d) (Fin d) ℝ)
    (sp o : Fin d → ℝ) (hortho : dir.transpose * dir = 1)
    (hpos : ∀ j, 0 < sp j) :
    affine2spacing (construct_affine dir sp o) = sp ∧
    affine2direction (construct_affine dir sp o)
      (affine2spacing (construct_affine dir sp o)) = dir := by
  have hsp : affine2spacing (construct_affine dir sp o) = sp := by
    funext j
    unfold affine2spacing
    rw [mBlock_construct]
    unfold colNorm
    have hent : ∀ i, ((dir * Matrix.diagonal sp) i j) ^ 2 =
        (dir i j) ^ 2 * (sp j) ^ 2 := by
      intro i
      rw [Matrix.mul_diagonal]
      ring
    rw [Finset.sum_congr rfl (fun i _ => hent i), ← Finset.sum_mul]
    have h1 : (∑ i, (dir i j) ^ 2) = 1 := by
      have h2 := congrFun (congrFun hortho j) j
      simpa [Matrix.mul_apply, Matrix.transpose_apply, sq] using h2
    rw [h1, one_mul, Real.sqrt_sq (hpos j).le]
  refine ⟨hsp, ?_⟩
  unfold affine2direction
  rw [hsp, mBlock_construct, Matrix.mul_assoc, Matrix.diagonal_mul_diagonal]
  rw [show (fun i => sp i * (1 / sp i)) = (fun _ : Fin d => (1 : ℝ)) from
    funext fun j => mul_one_div_cancel (hpos j).ne.symm]
  rw [show Matrix.diagonal (fun _ : Fin d => (1 : ℝ)) = 1 from
    Matrix.diagonal_one, Matrix.mul_one]

/-- Claim C9: building an Affine from an orthonormal direction, positive
spacing and any origin, then re-deriving the components from the assembled
matrix, recovers the same spacing and the same direction (exactly, in real
arithmetic). -/
theorem spacing_direction_roundtrip {d : ℕ} (dir : Matrix (Fin d) (Fin d) ℝ)
    (sp o : Fin d → ℝ) (hortho : dir.transpose * dir = 1)
    (hpos : ∀ j, 0 < sp j) :
    (Affine.fromMatrix (Affine.fromComps dir sp o).matrix).spacing = sp ∧
    (Affine.fromMatrix (Affine.fromComps dir sp o).matrix).direction = dir := by
  have h := decompose_construct dir sp o hortho hpos
  exact ⟨h.1, h.2⟩

/-- Witness for C9 at direction = identity, spacing = (2,3,5),
origin = (7,8,9). -/
theorem spacing_direction_roundtrip_witness :
    ((1 : Matrix (Fin 3) (Fin 3) ℝ).transpose * 1 = 1) ∧
    (∀ j, (0 : ℝ) < (![2, 3, 5] : Fin 3 → ℝ) j) ∧
    ((Affine.fromMatrix
        (Affine.fromComps (1 : Matrix (Fin 3) (Fin 3) ℝ)
          ![2, 3, 5] ![7, 8, 9]).matrix).spacing = ![2, 3, 5] ∧
      (Affine.fromMatrix
        (Affine.fromComps (1 : Matrix (Fin 3) (Fin 3) ℝ)
          ![2, 3, 5] ![7, 8, 9]).matrix).direction = 1) := by
  have h1 : (1 : Matrix (Fin 3) (Fin 3) ℝ).transpose * 1 = 1 := by
    rw [Matrix.transpose_one, Matrix.mul_one]
  have h2 : ∀ j, (0 : ℝ) < (![2, 3, 5] : Fin 3 → ℝ) j := by
    intro j
    fin_cases j <;>
      norm_num [Matrix.cons_val_zero, Matrix.cons_val_one, Matrix.head_cons]
  exact ⟨h1, h2, spacing_direction_roundtrip 1 ![2, 3, 5] ![7, 8, 9] h1 h2⟩

/-- Claim C3 (amended): constructing an Affine from a raw matrix never
raises; when every column norm of the block is nonzero, the cached spacing is
the vector of column norms and the cached direction reassembles the block as
direction·diag(spacing), matching the spec-modelled `fromMatrixSpec`. -/
theorem fromMatrix_decomposition {d : ℕ}
    (A : Matrix (Fin (d + 1)) (Fin (d + 1)) ℝ)
    (h : ∀ j, affine2spacing A j ≠ 0) :
    (Affine.fromMatrix A).spacing = affine2spacing A ∧
    (Affine.fromMatrix A).direction *
      Matrix.diagonal ((Affine.fromMatrix A).spacing) = mBlock A ∧
    fromMatrixSpec A = some (Affine.fromMatrix A) := by
  refine ⟨rfl, ?_, ?_⟩
  · show affine2direction A (affine2spacing A) *
      Matrix.diagonal (affine2spacing A) = mBlock A
    unfold affine2direction
    rw [Matrix.mul_assoc, Matrix.diagonal_mul_diagonal]
    rw [show (fun i => 1 / affine2spacing A i * affine2spacing A i) =
        (fun _ : Fin d => (1 : ℝ)) from
      funext fun j => one_div_mul_cancel (h j)]
    rw [show Matrix.diagonal (fun _ : Fin d => (1 : ℝ)) = 1 from
      Matrix.diagonal_one, Matrix.mul_one]
  · unfold fromMatrixSpec
    rw [if_pos h]

/-- Witness for C3's amended theorem at the diagonal matrix
diag(2,3,1,1). -/
theorem fromMatrix_decomposition_witness :
    (∀ j, affine2spacing (Matrix.diagonal ![(2 : ℝ), 3, 1, 1]) j ≠ 0) ∧
    ((Affine.fromMatrix (Matrix.diagonal ![(2 : ℝ), 3, 1, 1])).spacing =
        affine2spacing (Matrix.diagonal ![(2 : ℝ), 3, 1, 1]) ∧
      (Affine.fromMatrix (Matrix.diagonal ![(2 : ℝ), 3, 1, 1])).direction *
        Matrix.diagonal
          ((Affine.fromMatrix (Matrix.diagonal ![(2 : ℝ), 3, 1, 1])).spacing) =
        mBlock (Matrix.diagonal ![(2 : ℝ), 3, 1, 1]) ∧
      fromMatrixSpec (Matrix.diagonal ![(2 : ℝ), 3, 1, 1]) =
        some (Affine.fromMatrix (Matrix.diagonal ![(2 : ℝ), 3, 1, 1]))) := by
  have h : ∀ j, affine2spacing (Matrix.diagonal ![(2 : ℝ), 3, 1, 1]) j ≠ 0 := by
    intro j
    rw [affine2spacing_diagonal]
    fin_cases j <;>
      norm_num [Matrix.cons_val_zero, Matrix.cons_val_one, Matrix.head_cons,
        Matrix.cons_val_succ]
  exact ⟨h, fromMatrix_decomposition _ h⟩

/-- Claim C3 counterexample: at a raw matrix whose first block column is
zero, the spec-modelled `from_matrix` fails, but the source construction is
an ordinary total computation — it returns an Affine holding the input
matrix with a zero spacing entry; nothing in `Affine.__init__` raises. -/
theorem fromMatrix_zero_column_no_failure :
    affine2spacing (Matrix.diagonal ![(0 : ℝ), 1, 1, 1]) 0 = 0 ∧
    fromMatrixSpec (Matrix.diagonal ![(0 : ℝ), 1, 1, 1]) = none ∧
    (Affine.fromMatrix (Matrix.diagonal ![(0 : ℝ), 1, 1, 1])).matrix =
      Matrix.diagonal ![(0 : ℝ), 1, 1, 1] ∧
    (Affine.fromMatrix (Matrix.diagonal ![(0 : ℝ), 1, 1, 1])).spacing 0 = 0 := by
  have h0 : affine2spacing (Matrix.diagonal ![(0 : ℝ), 1, 1, 1]) 0 = 0 := by
    rw [affine2spacing_diagonal]
    norm_num [Matrix.cons_val_zero]
  refine ⟨h0, ?_, rfl, h0⟩
  unfold fromMatrixSpec
  rw [if_neg]
  intro hall
  exact hall 0 h0

/-- Claim C5: setting the spacing stores the absolute value of the assigned
vector, rescales every block column by the per-axis ratio new/old, and leaves
the cached direction and the origin unchanged. -/
theorem setSpacing_spec {d : ℕ} (a : Affine d) (v : Fin d → ℝ)
    (h : ∀ j, a.spacing j ≠ 0) :
    (a.setSpacing v).spacing = (fun j => |v j|) ∧
    (∀ i j, mBlock (a.setSpacing v).matrix i j =
      mBlock a.matrix i j * (v j / a.spacing j)) ∧
    (a.setSpacing v).direction = a.direction ∧
    (a.setSpacing v).origin = a.origin := by
  refine ⟨rfl, ?_, rfl, ?_⟩
  · intro i j
    show mBlock (setMBlock a.matrix (mBlock a.matrix *
      Matrix.diagonal (fun j => v j / a.cachedSpacing j))) i j = _
    rw [mBlock_setMBlock, Matrix.mul_diagonal]
    rfl
  · show originOf (setMBlock a.matrix _) = originOf a.matrix
    rw [originOf_setMBlock]

/-- Witness for C5: start from spacing (1,1,1), assign (2,1,1). -/
theorem setSpacing_spec_witness :
    (∀ j, (Affine.fromComps (1 : Matrix (Fin 3) (Fin 3) ℝ)
        ![1, 1, 1] ![0, 0, 0]).spacing j ≠ 0) ∧
    (((Affine.fromComps (1 : Matrix (Fin 3) (Fin 3) ℝ)
        ![1, 1, 1] ![0, 0, 0]).setSpacing ![2, 1, 1]).spacing =
        (fun j => |(![2, 1, 1] : Fin 3 → ℝ) j|) ∧
      (∀ i j, mBlock ((Affine.fromComps (1 : Matrix (Fin 3) (Fin 3) ℝ)
          ![1, 1, 1] ![0, 0, 0]).setSpacing ![2, 1, 1]).matrix i j =
        mBlock (Affine.fromComps (1 : Matrix (Fin 3) (Fin 3) ℝ)
          ![1, 1, 1] ![0, 0, 0]).matrix i j *
          ((![2, 1, 1] : Fin 3 → ℝ) j /
            (Affine.fromComps (1 : Matrix (Fin 3) (Fin 3) ℝ)
              ![1, 1, 1] ![0, 0, 0]).spacing j)) ∧
      ((Affine.fromComps (1 : Matrix (Fin 3) (Fin 3) ℝ)
          ![1, 1, 1] ![0, 0, 0]).setSpacing ![2, 1, 1]).direction =
        (Affine.fromComps (1 : Matrix (Fin 3) (Fin 3) ℝ)
          ![1, 1, 1] ![0, 0, 0]).direction ∧
      ((Affine.fromComps (1 : Matrix (Fin 3) (Fin 3) ℝ)
          ![1, 1, 1] ![0, 0, 0]).setSpacing ![2, 1, 1]).origin =
        (Affine.fromComps (1 : Matrix (Fin 3) (Fin 3) ℝ)
          ![1, 1, 1] ![0, 0, 0]).origin) := by
  have h : ∀ j, (Affine.fromComps (1 : Matrix (Fin 3) (Fin 3) ℝ)
      ![1, 1, 1] ![0, 0, 0]).spacing j ≠ 0 := by
    intro j
    show (![1, 1, 1] : Fin 3 → ℝ) j ≠ 0
    fin_cases j <;>
      norm_num [Matrix.cons_val_zero, Matrix.cons_val_one, Matrix.head_cons]
  exact ⟨h, setSpacing_spec _ ![2, 1, 1] h⟩

/-- Claim C6 counterexample: constructing from components with a negative
spacing entry stores that entry as given — `__init__` does not take the
absolute value, so the cached spacing is negative. -/
theorem fromComps_negative_spacing_stored :
    (Affine.fromComps (1 : Matrix (Fin 3) (Fin 3) ℝ)
      ![-1, 1, 1] ![0, 0, 0]).spacing 0 < 0 := by
  show (![-1, 1, 1] : Fin 3 → ℝ) 0 < 0
  norm_num [Matrix.cons_val_zero]

/-- Claim C6 (amended): the cached spacing is non-negative after raw-matrix
construction, after every spacing assignment, and after clone; the origin and
direction setters preserve non-negativity.  (Component construction stores the
given spacing unchanged, so a negative entry persists there — see the
counterexample.) -/
theorem spacing_nonneg_invariant :
    (∀ (d : ℕ) (A : Matrix (Fin (d + 1)) (Fin (d + 1)) ℝ) (j : Fin d),
      0 ≤ (Affine.fromMatrix A).spacing j) ∧
    (∀ (d : ℕ) (a : Affine d) (v : Fin d → ℝ) (j : Fin d),
      0 ≤ (a.setSpacing v).spacing j) ∧
    (∀ (d : ℕ) (a : Affine d) (j : Fin d), 0 ≤ a.clone.spacing j) ∧
    (∀ (d : ℕ) (a : Affine d) (v : Matrix (Fin d) (Fin d) ℝ) (j : Fin d),
      0 ≤ a.spacing j → 0 ≤ (a.setDirection v).spacing j) ∧
    (∀ (d : ℕ) (a : Affine d) (v : Fin d → ℝ) (j : Fin d),
      0 ≤ a.spacing j → 0 ≤ (a.setOrigin v).spacing j) := by
  refine ⟨?_, ?_, ?_, ?_, ?_⟩
  · intro d A j
    exact Real.sqrt_nonneg _
  · intro d a v j
    exact abs_nonneg _
  · intro d a j
    exact Real.sqrt_nonneg _
  · intro d a v j h
    exact h
  · intro d a v j h
    exact h

/-- Witness for C6's amended theorem: the direction and origin setters keep a
concrete non-negative spacing non-negative. -/
theorem spacing_nonneg_invariant_witness :
    ((0 : ℝ) ≤ (Affine.fromComps (1 : Matrix (Fin 3) (Fin 3) ℝ)
        ![1, 1, 1] ![0, 0, 0]).spacing 0) ∧
    (0 ≤ ((Affine.fromComps (1 : Matrix (Fin 3) (Fin 3) ℝ)
        ![1, 1, 1] ![0, 0, 0]).setDirection 1).spacing 0) ∧
    (0 ≤ ((Affine.fromComps (1 : Matrix (Fin 3) (Fin 3) ℝ)
        ![1, 1, 1] ![0, 0, 0]).setOrigin ![4, 5, 6]).spacing 0) := by
  have h0 : (0 : ℝ) ≤ (Affine.fromComps (1 : Matrix (Fin 3) (Fin 3) ℝ)
      ![1, 1, 1] ![0, 0, 0]).spacing 0 := by
    show (0 : ℝ) ≤ (![1, 1, 1] : Fin 3 → ℝ) 0
    norm_num [Matrix.cons_val_zero]
  exact ⟨h0, spacing_nonneg_invariant.2.2.2.1 3 _ 1 0 h0,
    spacing_nonneg_invariant.2.2.2.2 3 _ ![4, 5, 6] 0 h0⟩

/-- Claim C7 counterexample: clone is `Affine(self.copy())`, which recomputes
the cached fields from the matrix.  For the component-built Affine with
cached spacing (-1,1,1), the clone's cached spacing entry 0 is the column
norm 1, not the original cached value -1 — the matrix is preserved but the
decomposition state is not. -/
theorem clone_recomputes_cache :
    (Affine.fromComps (1 : Matrix (Fin 3) (Fin 3) ℝ)
      ![-1, 1, 1] ![0, 0, 0]).spacing 0 = -1 ∧
    ((Affine.fromComps (1 : Matrix (Fin 3) (Fin 3) ℝ)
      ![-1, 1, 1] ![0, 0, 0]).clone).spacing 0 = 1 ∧
    ((Affine.fromComps (1 : Matrix (Fin 3) (Fin 3) ℝ)
      ![-1, 1, 1] ![0, 0, 0]).clone).matrix =
      (Affine.fromComps (1 : Matrix (Fin 3) (Fin 3) ℝ)
        ![-1, 1, 1] ![0, 0, 0]).matrix := by
  refine ⟨?_, ?_, rfl⟩
  · show (![-1, 1, 1] : Fin 3 → ℝ) 0 = -1
    norm_num [Matrix.cons_val_zero]
  · show affine2spacing (construct_affine 1 ![-1, 1, 1] ![0, 0, 0]) 0 = 1
    unfold affine2spacing
    rw [mBlock_construct, Matrix.one_mul, colNorm_diagonal]
    norm_num [Matrix.cons_val_zero]

/-- Claim C7 (amended): clone preserves the matrix exactly, but its cached
spacing and direction are recomputed from the matrix by column-norm
decomposition; they therefore agree with the original's cached fields exactly
when those match the decomposition — in particular for any component-built
Affine with orthonormal direction and positive spacing. -/
theorem clone_matrix_and_recomputation :
    (∀ (d : ℕ) (a : Affine d), a.clone.matrix = a.matrix ∧
      a.clone.spacing = affine2spacing a.matrix ∧
      a.clone.direction = affine2direction a.matrix (affine2spacing a.matrix)) ∧
    (∀ (d : ℕ) (dir : Matrix (Fin d) (Fin d) ℝ) (sp o : Fin d → ℝ),
      dir.transpose * dir = 1 → (∀ j, 0 < sp j) →
      (Affine.fromComps dir sp o).clone.spacing = sp ∧
      (Affine.fromComps dir sp o).clone.direction = dir) := by
  constructor
  · intro d a
    exact ⟨rfl, rfl, rfl⟩
  · intro d dir sp o hortho hpos
    exact decompose_construct dir sp o hortho hpos

/-- Witness for C7's amended theorem at direction = identity,
spacing = (1,2,3). -/
theorem clone_matrix_and_recomputation_witness :
    ((1 : Matrix (Fin 3) (Fin 3) ℝ).transpose * 1 = 1) ∧
    (∀ j, (0 : ℝ) < (![1, 2, 3] : Fin 3 → ℝ) j) ∧
    ((Affine.fromComps (1 : Matrix (Fin 3) (Fin 3) ℝ)
        ![1, 2, 3] ![4, 5, 6]).clone.spacing = ![1, 2, 3] ∧
      (Affine.fromComps (1 : Matrix (Fin 3) (Fin 3) ℝ)
        ![1, 2, 3] ![4, 5, 6]).clone.direction = 1) := by
  have h1 : (1 : Matrix (Fin 3) (Fin 3) ℝ).transpose * 1 = 1 := by
    rw [Matrix.transpose_one, Matrix.mul_one]
  have h2 : ∀ j, (0 : ℝ) < (![1, 2, 3] : Fin 3 → ℝ) j := by
    intro j
    fin_cases j <;>
      norm_num [Matrix.cons_val_zero, Matrix.cons_val_one, Matrix.head_cons]
  exact ⟨h1, h2,
    clone_matrix_and_recomputation.2 3 1 ![1, 2, 3] ![4, 5, 6] h1 h2⟩

/-! ### Coordinate-system conversion lemmas -/

theorem CONVERT_AFF_MAT4_sq : CONVERT_AFF_MAT4 * CONVERT_AFF_MAT4 = 1 := by
  unfold CONVERT_AFF_MAT4
  rw [Matrix.diagonal_mul_diagonal]
  have h : (fun i => (![-1, -1, 1, 1] : Fin 4 → ℝ) i * ![-1, -1, 1, 1] i) =
      (fun _ : Fin 4 => (1 : ℝ)) := by
    funext i
    fin_cases i <;>
      norm_num [Matrix.cons_val_zero, Matrix.cons_val_one,
        Matrix.head_cons, Matrix.cons_val_succ]
  rw [h]
  exact Matrix.diagonal_one

theorem CONVERT_AFF_MAT3_sq : CONVERT_AFF_MAT3 * CONVERT_AFF_MAT3 = 1 := by
  unfold CONVERT_AFF_MAT3
  rw [Matrix.diagonal_mul_diagonal]
  have h : (fun i => (![-1, -1, 1] : Fin 3 → ℝ) i * ![-1, -1, 1] i) =
      (fun _ : Fin 3 => (1 : ℝ)) := by
    funext i
    fin_cases i <;>
      norm_num [Matrix.cons_val_zero, Matrix.cons_val_one,
        Matrix.head_cons, Matrix.cons_val_succ]
  rw [h]
  exact Matrix.diagonal_one

theorem axes_inv_char_involution :
    ∀ c ∈ axLetters, ∃ c2 ∈ axLetters,
      TwoWayDict.get AXES_INV c = .ok c2 ∧
      TwoWayDict.get AXES_INV c2 = .ok c := by decide

theorem invChars_double (cs : List Char) (h : ∀ c ∈ cs, c ∈ axLetters) :
    ∃ cs2, invChars cs = .ok cs2 ∧ invChars cs2 = .ok cs := by
  induction cs with
  | nil => exact ⟨[], rfl, rfl⟩
  | cons c t ih =>
    obtain ⟨c2, _, hc1, hc2⟩ :=
      axes_inv_char_involution c (h c (List.mem_cons_self c t))
    obtain ⟨t2, ht1, ht2⟩ := ih (fun x hx => h x (List.mem_cons_of_mem c hx))
    refine ⟨c2 :: t2, ?_, ?_⟩
    · simp only [invChars, hc1, ht1]
      rfl
    · simp only [invChars, hc2, ht2]
      rfl

theorem inv_axcodes_double (ax : Option (List Char)) (h : validAxChars ax) :
    ∃ ax2, inv_axcodes ax = .ok ax2 ∧ inv_axcodes ax2 = .ok ax := by
  match ax with
  | none => exact ⟨none, rfl, rfl⟩
  | some cs =>
    obtain ⟨cs2, h1, h2⟩ := invChars_double cs h
    refine ⟨some cs2, ?_, ?_⟩
    · simp only [inv_axcodes, h1]
      rfl
    · simp only [inv_axcodes, h2]
      rfl

theorem mapInvAxcodes_double (l : List (Option (List Char)))
    (h : ∀ ax ∈ l, validAxChars ax) :
    ∃ l2, mapInvAxcodes l = .ok l2 ∧ mapInvAxcodes l2 = .ok l := by
  induction l with
  | nil => exact ⟨[], rfl, rfl⟩
  | cons a t ih =>
    obtain ⟨a2, ha1, ha2⟩ :=
      inv_axcodes_double a (h a (List.mem_cons_self a t))
    obtain ⟨t2, ht1, ht2⟩ := ih (fun x hx => h x (List.mem_cons_of_mem a hx))
    refine ⟨a2 :: t2, ?_, ?_⟩
    · simp only [mapInvAxcodes, ha1, ht1]
      rfl
    · simp only [mapInvAxcodes, ha2, ht2]
      rfl

/-- Claim C4: the coordinate-system conversion is an involution — converting
a 4×4 or 3×3 affine twice restores it exactly, inverting an axcodes sequence
(orientation strings over the axis letters, or None) twice restores the
original sequence, and `convert_nib_itk` applied twice restores both the
affine and the axcodes. -/
theorem convert_involution :
    (∀ A : Matrix (Fin 4) (Fin 4) ℝ,
      convert_affine4 (convert_affine4 A) = A) ∧
    (∀ A : Matrix (Fin 3) (Fin 3) ℝ,
      convert_affine3 (convert_affine3 A) = A) ∧
    (∀ axcodes : List (Option (List Char)),
      (∀ ax ∈ axcodes, validAxChars ax) →
      ∃ axcodes2, mapInvAxcodes axcodes = .ok axcodes2 ∧
        mapInvAxcodes axcodes2 = .ok axcodes) ∧
    (∀ (A : Matrix (Fin 4) (Fin 4) ℝ) (axcodes : List (Option (List Char))),
      (∀ ax ∈ axcodes, validAxChars ax) →
      ∃ axcodes2,
        convert_nib_itk4 A axcodes = .ok (convert_affine4 A, axcodes2) ∧
        convert_nib_itk4 (convert_affine4 A) axcodes2 = .ok (A, axcodes)) := by
  have haff4 : ∀ A : Matrix (Fin 4) (Fin 4) ℝ,
      convert_affine4 (convert_affine4 A) = A := by
    intro A
    unfold convert_affine4
    rw [← Matrix.mul_assoc, CONVERT_AFF_MAT4_sq, Matrix.one_mul]
  refine ⟨haff4, ?_, fun axcodes h => mapInvAxcodes_double axcodes h, ?_⟩
  · intro A
    unfold convert_affine3
    rw [← Matrix.mul_assoc, CONVERT_AFF_MAT3_sq, Matrix.one_mul]
  · intro A axcodes h
    obtain ⟨l2, h1, h2⟩ := mapInvAxcodes_double axcodes h
    refine ⟨l2, ?_, ?_⟩
    · unfold convert_nib_itk4
      rw [h1]
      rfl
    · unfold convert_nib_itk4
      rw [h2, haff4 A]
      rfl

/-- Witness for C4 at the axcodes sequence ["LPI", None, "RAS"] and the
identity affine. -/
theorem convert_involution_witness :
    (∀ ax ∈ ([some ['L', 'P', 'I'], none, some ['R', 'A', 'S']] :
        List (Option (List Char))), validAxChars ax) ∧
    (∃ axcodes2,
      convert_nib_itk4 (1 : Matrix (Fin 4) (Fin 4) ℝ)
          [some ['L', 'P', 'I'], none, some ['R', 'A', 'S']] =
        .ok (convert_affine4 1, axcodes2) ∧
      convert_nib_itk4 (convert_affine4 (1 : Matrix (Fin 4) (Fin 4) ℝ))
          axcodes2 =
        .ok (1, [some ['L', 'P', 'I'], none, some ['R', 'A', 'S']])) := by
  have h : ∀ ax ∈ ([some ['L', 'P', 'I'], none, some ['R', 'A', 'S']] :
      List (Option (List Char))), validAxChars ax := by decide
  exact ⟨h, convert_involution.2.2.2 1 _ h⟩

/-! ### Orientation encoding lemmas -/

theorem getattrAxCodes_eq_none_iff (c : Char) :
    getattrAxCodes c = none ↔ c ∉ axLetters := by
  unfold getattrAxCodes axLetters
  split_ifs with h1 h2 h3 h4 h5 h6 <;> simp_all

theorem lookupAxCodes_eq_none (s : List Char)
    (h : ∃ c ∈ s, c ∉ axLetters) : lookupAxCodes s = none := by
  induction s with
  | nil => simp at h
  | cons c t ih =>
    obtain ⟨x, hx, hxn⟩ := h
    rcases List.mem_cons.mp hx with rfl | hxt
    · have hnone : getattrAxCodes x = none :=
        (getattrAxCodes_eq_none_iff x).mpr hxn
      simp [lookupAxCodes, hnone]
    · cases hc : getattrAxCodes c with
      | none => simp [lookupAxCodes, hc]
      | some n => simp [lookupAxCodes, hc, ih ⟨x, hxt, hxn⟩]

/-- Claim C2 (amended): `itk_orientation_code` fails (with the attribute
lookup error) exactly for a letter outside {R,L,A,P,I,S}; for any three
letters from the alphabet it succeeds even when they are not one from each
opposing pair — in particular "RRA" yields the packed code 328194 rather than
an error. -/
theorem encode_failure_characterization :
    (∀ s : List Char, (∃ c ∈ s, c ∉ axLetters) →
      itk_orientation_code s = .error .attributeError) ∧
    (∀ a ∈ axLetters, ∀ b ∈ axLetters, ∀ c ∈ axLetters,
      (itk_orientation_code [a, b, c]).isOk = true) ∧
    itk_orientation_code ['X', 'Y', 'Z'] = .error .attributeError ∧
    itk_orientation_code ['R', 'R', 'A'] = .ok 328194 := by
  refine ⟨?_, by decide, by decide, by decide⟩
  intro s h
  unfold itk_orientation_code
  rw [lookupAxCodes_eq_none s h]

/-- Witness for C2's amended theorem at the invalid string "XYZ". -/
theorem encode_failure_characterization_witness :
    (∃ c ∈ (['X', 'Y', 'Z'] : List Char), c ∉ axLetters) ∧
    itk_orientation_code ['X', 'Y', 'Z'] = .error .attributeError := by
  have h : ∃ c ∈ (['X', 'Y', 'Z'] : List Char), c ∉ axLetters := by decide
  exact ⟨h, encode_failure_characterization.1 ['X', 'Y', 'Z'] h⟩

/-- Claim C2 counterexample: "RRA" has three valid letters that are not one
from each opposing pair, yet `itk_orientation_code` succeeds (no validation
of the combination takes place), returning 2 + (2<<8) + (5<<16) = 328194. -/
theorem encode_rra_succeeds :
    itk_orientation_code ['R', 'R', 'A'] = .ok 328194 ∧
    (itk_orientation_code ['R', 'R', 'A']).isOk = true := by decide

/-- Claim C1: the table build succeeds; for every one of the 48 generated
orientation strings, decode(encode(s)) = s and the string maps to its packed
code; the generation yields exactly the 48 distinct strings with one letter
per opposing pair (and conversely every such string is generated); the
table's keys are exactly the None sentinel, those 48 strings and their codes;
and encode is injective on the 48 strings. -/
theorem codes_table_roundtrip :
    codes_str_dict_e = .ok codes_str_dict ∧
    (∀ s ∈ _ax_codes_iter,
      (itk_orientation_code s).bind
        (fun n => TwoWayDict.get codes_str_dict (OKey.intK n)) =
        .ok (OKey.strK s) ∧
      TwoWayDict.get codes_str_dict (OKey.strK s) =
        (itk_orientation_code s).map OKey.intK) ∧
    (_ax_codes_iter.length = 48 ∧ _ax_codes_iter.Nodup ∧
      ∀ s ∈ _ax_codes_iter, validOrientationStr s) ∧
    (∀ s : List Char, (∀ c ∈ s, c ∈ axLetters) → validOrientationStr s →
      s ∈ _ax_codes_iter) ∧
    (∀ p ∈ codes_str_dict, p.1 = OKey.noneK ∨
      (∃ s ∈ _ax_codes_iter, p.1 = OKey.strK s) ∨
      (∃ s ∈ _ax_codes_iter,
        (itk_orientation_code s).map OKey.intK = .ok p.1)) ∧
    TwoWayDict.get codes_str_dict OKey.noneK = .ok OKey.noneK ∧
    (_ax_codes_iter.map itk_orientation_code).Nodup := by
  refine ⟨by decide, by decide, ⟨by decide, by decide, by decide⟩, ?_,
    by decide, by decide, by decide⟩
  have key : ∀ a ∈ axLetters, ∀ b ∈ axLetters, ∀ c ∈ axLetters,
      validOrientationStr [a, b, c] → [a, b, c] ∈ _ax_codes_iter := by decide
  intro s hchars hvalid
  obtain ⟨a, b, c, rfl⟩ := List.length_eq_three.mp hvalid.1
  exact key a (hchars a (by simp)) b (hchars b (by simp))
    c (hchars c (by simp)) hvalid

/-- Witness for C1 at the orientation string "RAS". -/
theorem codes_table_roundtrip_witness :
    ((['R', 'A', 'S'] : List Char) ∈ _ax_codes_iter) ∧
    ((itk_orientation_code ['R', 'A', 'S']).bind
        (fun n => TwoWayDict.get codes_str_dict (OKey.intK n)) =
        .ok (OKey.strK ['R', 'A', 'S']) ∧
      TwoWayDict.get codes_str_dict (OKey.strK ['R', 'A', 'S']) =
        (itk_orientation_code ['R', 'A', 'S']).map OKey.intK) := by
  have h : (['R', 'A', 'S'] : List Char) ∈ _ax_codes_iter := by decide
  exact ⟨h, codes_table_roundtrip.2.1 ['R', 'A', 'S'] h⟩

/-! ### TwoWayDict lemmas -/

theorem exceptBind_ok {ε α β : Type} (a : α) (f : α → Except ε β) :
    Except.bind (.ok a) f = f a := rfl

theorem exceptBind_error {ε α β : Type} (e : ε) (f : α → Except ε β) :
    Except.bind (.error e) f = .error e := rfl

theorem rawSet_of_not_mem {α : Type} [DecidableEq α] (d : TwoWayDict α)
    (k v : α) (h : TwoWayDict.memKey d k = false) :
    TwoWayDict.rawSet d k v = d ++ [(k, v)] := by
  induction d with
  | nil => rfl
  | cons p t ih =>
    obtain ⟨a, b⟩ := p
    rw [TwoWayDict.memKey] at h
    rw [Bool.or_eq_false_iff] at h
    obtain ⟨h1, h2⟩ := h
    rw [decide_eq_false_iff_not] at h1
    rw [TwoWayDict.rawSet, if_neg h1, ih h2]
    rfl

theorem rawSet_append_self {α : Type} [DecidableEq α] (d : TwoWayDict α)
    (k v w : α) (h : TwoWayDict.memKey d k = false) :
    TwoWayDict.rawSet (d ++ [(k, v)]) k w = d ++ [(k, w)] := by
  induction d with
  | nil =>
    show TwoWayDict.rawSet [(k, v)] k w = [(k, w)]
    rw [TwoWayDict.rawSet, if_pos rfl]
  | cons p t ih =>
    obtain ⟨a, b⟩ := p
    rw [TwoWayDict.memKey] at h
    rw [Bool.or_eq_false_iff] at h
    obtain ⟨h1, h2⟩ := h
    rw [decide_eq_false_iff_not] at h1
    show TwoWayDict.rawSet ((a, b) :: (t ++ [(k, v)])) k w = _
    rw [TwoWayDict.rawSet, if_neg h1, ih h2]
    rfl

/-- Claim C10: a self-pair insertion on a fresh key stores a single raw
entry; `len` is the floor of the raw entry count halved; consequently the
orientation table holds 97 raw entries (the None sentinel plus 48 pairs) and
reports exactly 48 connections. -/
theorem selfpair_single_entry_and_table_size :
    (∀ (α : Type) [DecidableEq α] (d : TwoWayDict α) (k : α),
      TwoWayDict.memKey d k = false →
      TwoWayDict.setItem d k k = .ok (d ++ [(k, k)])) ∧
    (∀ (α : Type) (d : TwoWayDict α),
      TwoWayDict.len d = TwoWayDict.rawLen d / 2) ∧
    codes_str_dict_e.map TwoWayDict.rawLen = .ok 97 ∧
    codes_str_dict_e.map TwoWayDict.len = .ok 48 := by
  refine ⟨?_, fun α d => rfl, by decide, by decide⟩
  intro α _ d k h
  have hcond : ¬ (TwoWayDict.memKey d k = true) := by
    rw [h]
    exact Bool.false_ne_true
  unfold TwoWayDict.setItem
  rw [if_neg hcond]
  simp only [exceptBind_ok]
  rw [if_neg hcond]
  simp only [exceptBind_ok]
  rw [rawSet_of_not_mem d k k h, rawSet_append_self d k k k h]

/-- Witness for C10: inserting the None sentinel self-pair into the empty
dict stores exactly one raw entry. -/
theorem selfpair_single_entry_witness :
    (TwoWayDict.memKey (TwoWayDict.empty OKey) OKey.noneK = false) ∧
    TwoWayDict.setItem (TwoWayDict.empty OKey) OKey.noneK OKey.noneK =
      .ok (TwoWayDict.empty OKey ++ [(OKey.noneK, OKey.noneK)]) := by
  have h : TwoWayDict.memKey (TwoWayDict.empty OKey) OKey.noneK = false := by
    decide
  exact ⟨h, selfpair_single_entry_and_table_size.1 OKey
    (TwoWayDict.empty OKey) OKey.noneK h⟩

theorem TwoWayDict.getVal_eq_none_iff {α : Type} [DecidableEq α]
    (d : TwoWayDict α) (j : α) :
    TwoWayDict.getVal d j = none ↔ j ∉ d.map Prod.fst := by
  induction d with
  | nil => simp [TwoWayDict.getVal]
  | cons p t ih =>
    obtain ⟨a, b⟩ := p
    by_cases haj : a = j
    · subst haj
      simp [TwoWayDict.getVal]
    · have hja : ¬ (j = a) := fun hja => haj hja.symm
      rw [List.map_cons, TwoWayDict.getVal, if_neg haj, ih]
      simp [List.mem_cons, hja]

theorem TwoWayDict.memKey_eq_false_iff {α : Type} [DecidableEq α]
    (d : TwoWayDict α) (k : α) :
    TwoWayDict.memKey d k = false ↔ TwoWayDict.getVal d k = none := by
  induction d with
  | nil => simp [TwoWayDict.memKey, TwoWayDict.getVal]
  | cons p t ih =>
    obtain ⟨a, b⟩ := p
    by_cases hak : a = k
    · subst hak
      simp [TwoWayDict.memKey, TwoWayDict.getVal]
    · simp [TwoWayDict.memKey, TwoWayDict.getVal, hak, ih]

theorem TwoWayDict.memKey_eq_true_iff {α : Type} [DecidableEq α]
    (d : TwoWayDict α) (k : α) :
    TwoWayDict.memKey d k = true ↔ TwoWayDict.getVal d k ≠ none := by
  constructor
  · intro h hnone
    rw [← TwoWayDict.memKey_eq_false_iff] at hnone
    rw [h] at hnone
    cases hnone
  · intro h
    cases hm : TwoWayDict.memKey d k
    · exact absurd ((TwoWayDict.memKey_eq_false_iff d k).mp hm) h
    · rfl

theorem TwoWayDict.getVal_mem {α : Type} [DecidableEq α] {d : TwoWayDict α}
    {k x : α} (h : TwoWayDict.getVal d k = some x) : (k, x) ∈ d := by
  induction d with
  | nil => cases h
  | cons p t ih =>
    obtain ⟨a, b⟩ := p
    rw [TwoWayDict.getVal] at h
    by_cases hak : a = k
    · rw [if_pos hak] at h
      subst hak
      obtain rfl := Option.some.inj h
      exact List.mem_cons_self _ _
    · rw [if_neg hak] at h
      exact List.mem_cons_of_mem _ (ih h)

theorem TwoWayDict.mem_getVal {α : Type} [DecidableEq α] {d : TwoWayDict α}
    {k x : α} (hnd : keysNodup d) (h : (k, x) ∈ d) :
    TwoWayDict.getVal d k = some x := by
  induction d with
  | nil => cases h
  | cons p t ih =>
    obtain ⟨a, b⟩ := p
    rw [keysNodup, List.map_cons, List.nodup_cons] at hnd
    rcases List.mem_cons.mp h with heq | hmem
    · injection heq with h1 h2
      subst h1
      subst h2
      rw [TwoWayDict.getVal, if_pos rfl]
    · by_cases hak : a = k
      · exfalso
        subst hak
        exact hnd.1 (List.mem_map.mpr ⟨(a, x), hmem, rfl⟩)
      · rw [TwoWayDict.getVal, if_neg hak]
        exact ih hnd.2 hmem

theorem getVal_rawSet_self {α : Type} [DecidableEq α] (d : TwoWayDict α)
    (k v : α) :
    TwoWayDict.getVal (TwoWayDict.rawSet d k v) k = some v := by
  induction d with
  | nil => rw [TwoWayDict.rawSet, TwoWayDict.getVal, if_pos rfl]
  | cons p t ih =>
    obtain ⟨a, b⟩ := p
    by_cases hak : a = k
    · rw [TwoWayDict.rawSet, if_pos hak, TwoWayDict.getVal, if_pos hak]
    · rw [TwoWayDict.rawSet, if_neg hak, TwoWayDict.getVal, if_neg hak]
      exact ih

theorem getVal_rawSet_ne {α : Type} [DecidableEq α] (d : TwoWayDict α)
    (k v j : α) (h : j ≠ k) :
    TwoWayDict.getVal (TwoWayDict.rawSet d k v) j =
      TwoWayDict.getVal d j := by
  induction d with
  | nil =>
    simp only [TwoWayDict.rawSet, TwoWayDict.getVal]
    rw [if_neg (fun hh => h hh.symm)]
  | cons p t ih =>
    obtain ⟨a, b⟩ := p
    by_cases hak : a = k
    · subst hak
      rw [TwoWayDict.rawSet, if_pos rfl, TwoWayDict.getVal, TwoWayDict.getVal,
        if_neg (fun hh => h hh.symm), if_neg (fun hh => h hh.symm)]
    · rw [TwoWayDict.rawSet, if_neg hak, TwoWayDict.getVal, TwoWayDict.getVal]
      by_cases haj : a = j
      · rw [if_pos haj, if_pos haj]
      · rw [if_neg haj, if_neg haj]
        exact ih

theorem rawDel_spec {α : Type} [DecidableEq α] (d : TwoWayDict α) (k : α)
    (hnd : keysNodup d) (hk : TwoWayDict.getVal d k ≠ none) :
    ∃ d2, TwoWayDict.rawDel d k = .ok d2 ∧ keysNodup d2 ∧
      (∀ j, TwoWayDict.getVal d2 j =
        if j = k then none else TwoWayDict.getVal d j) ∧
      (∀ p : α × α, p ∈ d2 ↔ p ∈ d ∧ p.1 ≠ k) := by
  induction d with
  | nil => exact absurd rfl hk
  | cons q t ih =>
    obtain ⟨a, b⟩ := q
    rw [keysNodup, List.map_cons, List.nodup_cons] at hnd
    by_cases hak : a = k
    · subst hak
      refine ⟨t, ?_, hnd.2, ?_, ?_⟩
      · rw [TwoWayDict.rawDel, if_pos rfl]
      · intro j
        by_cases hjk : j = a
        · subst hjk
          rw [if_pos rfl]
          exact (TwoWayDict.getVal_eq_none_iff t j).mpr hnd.1
        · rw [if_neg hjk, TwoWayDict.getVal, if_neg (fun hh => hjk hh.symm)]
      · intro p
        constructor
        · intro hp
          refine ⟨List.mem_cons_of_mem _ hp, ?_⟩
          intro hpk
          apply hnd.1
          rw [← hpk]
          exact List.mem_map.mpr ⟨p, hp, rfl⟩
        · rintro ⟨hp, hpk⟩
          rcases List.mem_cons.mp hp with heq | hm
          · exact absurd (by rw [heq]) hpk
          · exact hm
    · have hk2 : TwoWayDict.getVal t k ≠ none := by
        rw [TwoWayDict.getVal, if_neg hak] at hk
        exact hk
      obtain ⟨t2, ht2, hnd2, hval2, hmem2⟩ := ih hnd.2 hk2
      refine ⟨(a, b) :: t2, ?_, ?_, ?_, ?_⟩
      · rw [TwoWayDict.rawDel, if_neg hak, ht2]
        rfl
      · rw [keysNodup, List.map_cons, List.nodup_cons]
        refine ⟨?_, hnd2⟩
        intro hmm
        obtain ⟨p, hp, hpa⟩ := List.mem_map.mp hmm
        apply hnd.1
        rw [← hpa]
        exact List.mem_map.mpr ⟨p, ((hmem2 p).mp hp).1, rfl⟩
      · intro j
        by_cases haj : a = j
        · subst haj
          rw [TwoWayDict.getVal, if_pos rfl, if_neg hak,
            TwoWayDict.getVal, if_pos rfl]
        · rw [TwoWayDict.getVal, if_neg haj, hval2 j]
          by_cases hjk : j = k
          · rw [if_pos hjk, if_pos hjk]
          · rw [if_neg hjk, if_neg hjk, TwoWayDict.getVal, if_neg haj]
      · intro p
        rw [List.mem_cons, hmem2 p, List.mem_cons]
        constructor
        · rintro (rfl | ⟨hp, hpk⟩)
          · exact ⟨Or.inl rfl, hak⟩
          · exact ⟨Or.inr hp, hpk⟩
        · rintro ⟨rfl | hp, hpk⟩
          · exact Or.inl rfl
          · exact Or.inr ⟨hp, hpk⟩

/-- `TwoWayDict.__delitem__` on a key paired with a *different* partner in a
symmetric dict: succeeds and removes exactly the two directions. -/
theorem delItem_spec {α : Type} [DecidableEq α] (d : TwoWayDict α) (k x : α)
    (hinv : twoWayInv d) (hget : TwoWayDict.getVal d k = some x)
    (hxk : x ≠ k) :
    ∃ d2, TwoWayDict.delItem d k = .ok d2 ∧ twoWayInv d2 ∧
      (∀ j, TwoWayDict.getVal d2 j =
        if j = k ∨ j = x then none else TwoWayDict.getVal d j) := by
  have hsym : TwoWayDict.getVal d x = some k :=
    hinv.2 (k, x) (TwoWayDict.getVal_mem hget)
  obtain ⟨d1, hd1, hnd1, hval1, hmem1⟩ :=
    rawDel_spec d x hinv.1 (by rw [hsym]; simp)
  have hd1k : TwoWayDict.getVal d1 k ≠ none := by
    rw [hval1 k, if_neg (fun hh => hxk hh.symm), hget]
    simp
  obtain ⟨d2, hd2, hnd2, hval2, hmem2⟩ := rawDel_spec d1 k hnd1 hd1k
  have hgetok : TwoWayDict.get d k = .ok x := by
    unfold TwoWayDict.get
    rw [hget]
  refine ⟨d2, ?_, ⟨hnd2, ?_⟩, ?_⟩
  · unfold TwoWayDict.delItem
    rw [hgetok]
    simp only [exceptBind_ok]
    rw [hd1]
    simp only [exceptBind_ok]
    exact hd2
  · intro p hp
    have hpd1 := (hmem2 p).mp hp
    have hpd := (hmem1 p).mp hpd1.1
    have hsymp := hinv.2 p hpd.1
    have hp2k : p.2 ≠ k := by
      intro hh
      rw [hh, hget] at hsymp
      exact hpd.2 (Option.some.inj hsymp).symm
    have hp2x : p.2 ≠ x := by
      intro hh
      rw [hh, hsym] at hsymp
      exact hpd1.2 (Option.some.inj hsymp).symm
    rw [hval2 p.2, if_neg hp2k, hval1 p.2, if_neg hp2x]
    exact hsymp
  · intro j
    rw [hval2 j]
    by_cases hjk : j = k
    · rw [if_pos hjk, if_pos (Or.inl hjk)]
    · rw [if_neg hjk, hval1 j]
      by_cases hjx : j = x
      · rw [if_pos hjx, if_pos (Or.inr hjx)]
      · rw [if_neg hjx, if_neg ?_]
        rintro (hh | hh)
        · exact hjk hh
        · exact hjx hh

/-- One conditional-delete step of `__setitem__`, on a key not sitting in a
self-pair: never raises and removes the key's pair (if any). -/
theorem step_del {α : Type} [DecidableEq α] (d : TwoWayDict α) (k : α)
    (hinv : twoWayInv d) (hk : TwoWayDict.getVal d k ≠ some k) :
    ∃ d1, (if TwoWayDict.memKey d k then TwoWayDict.delItem d k
        else .ok d) = .ok d1 ∧ twoWayInv d1 ∧
      (∀ j, TwoWayDict.getVal d1 j =
        if j = k ∨ TwoWayDict.getVal d k = some j then none
        else TwoWayDict.getVal d j) := by
  cases hm : TwoWayDict.memKey d k with
  | false =>
    have hnone : TwoWayDict.getVal d k = none :=
      (TwoWayDict.memKey_eq_false_iff d k).mp hm
    refine ⟨d, ?_, hinv, ?_⟩
    · rw [if_neg Bool.false_ne_true]
    · intro j
      by_cases hjk : j = k
      · rw [if_pos (Or.inl hjk), hjk, hnone]
      · rw [if_neg ?_]
        rintro (hh | hh)
        · exact hjk hh
        · rw [hnone] at hh
          cases hh
  | true =>
    have hne : TwoWayDict.getVal d k ≠ none :=
      (TwoWayDict.memKey_eq_true_iff d k).mp hm
    obtain ⟨x, hx⟩ := Option.ne_none_iff_exists'.mp hne
    have hxk : x ≠ k := fun hh => hk (hh ▸ hx)
    obtain ⟨d2, hdel, hinv2, hval⟩ := delItem_spec d k x hinv hx hxk
    refine ⟨d2, ?_, hinv2, ?_⟩
    · rw [if_pos rfl, hdel]
    · intro j
      rw [hval j]
      by_cases hjk : j = k
      · rw [if_pos (Or.inl hjk), if_pos (Or.inl hjk)]
      · by_cases hjx : j = x
        · rw [if_pos (Or.inr hjx), if_pos (Or.inr (by rw [hx, hjx]))]
        · rw [if_neg ?_, if_neg ?_]
          · rintro (hh | hh)
            · exact hjk hh
            · rw [hx] at hh
              exact hjx (Option.some.inj hh).symm
          · rintro (hh | hh)
            · exact hjk hh
            · exact hjx hh

/-- The `__setitem__` contract on a symmetric dict when neither the key nor
the value sits in a self-pair: it succeeds, maps k→v and v→k, unmaps the old
partners of k and of v, and leaves every other key untouched. -/
theorem setItem_contract {α : Type} [DecidableEq α] (d : TwoWayDict α)
    (k v : α) (hinv : twoWayInv d)
    (hk : TwoWayDict.getVal d k ≠ some k)
    (hv : TwoWayDict.getVal d v ≠ some v) :
    ∃ d3, TwoWayDict.setItem d k v = .ok d3 ∧
      TwoWayDict.getVal d3 k = some v ∧
      TwoWayDict.getVal d3 v = some k ∧
      (∀ x, TwoWayDict.getVal d k = some x → x ≠ k → x ≠ v →
        TwoWayDict.getVal d3 x = none) ∧
      (∀ y, TwoWayDict.getVal d v = some y → y ≠ k → y ≠ v →
        TwoWayDict.getVal d3 y = none) ∧
      (∀ j, j ≠ k → j ≠ v → TwoWayDict.getVal d k ≠ some j →
        TwoWayDict.getVal d v ≠ some j →
        TwoWayDict.getVal d3 j = TwoWayDict.getVal d j) := by
  obtain ⟨d1, he1, hinv1, hval1⟩ := step_del d k hinv hk
  have hv1 : TwoWayDict.getVal d1 v ≠ some v := by
    rw [hval1 v]
    by_cases hcond : v = k ∨ TwoWayDict.getVal d k = some v
    · rw [if_pos hcond]
      simp
    · rw [if_neg hcond]
      exact hv
  obtain ⟨d2, he2, hinv2, hval2⟩ := step_del d1 v hinv1 hv1
  refine ⟨TwoWayDict.rawSet (TwoWayDict.rawSet d2 k v) v k, ?_, ?_, ?_,
    ?_, ?_, ?_⟩
  · unfold TwoWayDict.setItem
    rw [he1]
    simp only [exceptBind_ok]
    rw [he2]
    simp only [exceptBind_ok]
  · rcases eq_or_ne k v with rfl | hkv
    · exact getVal_rawSet_self _ _ _
    · rw [getVal_rawSet_ne _ _ _ _ hkv]
      exact getVal_rawSet_self _ _ _
  · exact getVal_rawSet_self _ _ _
  · intro x hx hxk hxv
    rw [getVal_rawSet_ne _ _ _ _ hxv, getVal_rawSet_ne _ _ _ _ hxk, hval2 x]
    by_cases hcond : x = v ∨ TwoWayDict.getVal d1 v = some x
    · rw [if_pos hcond]
    · rw [if_neg hcond, hval1 x, if_pos (Or.inr hx)]
  · intro y hy hyk hyv
    rw [getVal_rawSet_ne _ _ _ _ hyv, getVal_rawSet_ne _ _ _ _ hyk, hval2 y]
    by_cases hc : v = k ∨ TwoWayDict.getVal d k = some v
    · rw [if_neg ?_]
      · rw [hval1 y, if_pos ?_]
        rcases hc with hc | hc
        · exact Or.inr (by rw [← hc]; exact hy)
        · exfalso
          have hvk : TwoWayDict.getVal d v = some k :=
            hinv.2 (k, v) (TwoWayDict.getVal_mem hc)
          rw [hy] at hvk
          exact hyk (Option.some.inj hvk)
      · rintro (hh | hh)
        · exact hyv hh
        · rw [hval1 v, if_pos hc] at hh
          cases hh
    · rw [if_pos (Or.inr (by rw [hval1 v, if_neg hc, hy]))]
  · intro j hjk hjv hjnk hjnv
    rw [getVal_rawSet_ne _ _ _ _ hjv, getVal_rawSet_ne _ _ _ _ hjk, hval2 j]
    rw [if_neg ?_, hval1 j, if_neg ?_]
    · rintro (hh | hh)
      · exact hjk hh
      · exact hjnk hh
    · rintro (hh | hh)
      · exact hjv hh
      · rw [hval1 v] at hh
        by_cases hc : v = k ∨ TwoWayDict.getVal d k = some v
        · rw [if_pos hc] at hh
          cases hh
        · rw [if_neg hc] at hh
          exact hjnv hh

/-- Claim C8 (amended): on any symmetric unique-key dict state, provided
neither the key nor the value currently sits in a self-pair (a key mapped to
itself — there `__setitem__` raises `KeyError` instead, see the
counterexample), set(k,v) removes the old pairs of k and of v in both
directions, inserts k→v and v→k, and touches nothing else; get on an
unmapped key fails with KeyError; size is the raw entry count halved; the
"A"/"B"/"C" scenario behaves as documented. -/
theorem twoWayDict_contract :
    (∀ (α : Type) [DecidableEq α] (d : TwoWayDict α) (k v : α),
      twoWayInv d → TwoWayDict.getVal d k ≠ some k →
      TwoWayDict.getVal d v ≠ some v →
      ∃ d3, TwoWayDict.setItem d k v = .ok d3 ∧
        TwoWayDict.getVal d3 k = some v ∧
        TwoWayDict.getVal d3 v = some k ∧
        (∀ x, TwoWayDict.getVal d k = some x → x ≠ k → x ≠ v →
          TwoWayDict.getVal d3 x = none) ∧
        (∀ y, TwoWayDict.getVal d v = some y → y ≠ k → y ≠ v →
          TwoWayDict.getVal d3 y = none) ∧
        (∀ j, j ≠ k → j ≠ v → TwoWayDict.getVal d k ≠ some j →
          TwoWayDict.getVal d v ≠ some j →
          TwoWayDict.getVal d3 j = TwoWayDict.getVal d j)) ∧
    (∀ (α : Type) [DecidableEq α] (d : TwoWayDict α) (k : α),
      TwoWayDict.getVal d k = none →
      TwoWayDict.get d k = .error .keyError) ∧
    (∀ (α : Type) (d : TwoWayDict α),
      TwoWayDict.len d = TwoWayDict.rawLen d / 2) ∧
    (TwoWayDict.setItem (TwoWayDict.empty Char) 'A' 'B' =
        .ok [('A', 'B'), ('B', 'A')] ∧
      TwoWayDict.get [('A', 'B'), ('B', 'A')] 'A' = .ok 'B' ∧
      TwoWayDict.get [('A', 'B'), ('B', 'A')] 'B' = .ok 'A' ∧
      TwoWayDict.len [('A', 'B'), ('B', 'A')] = 1 ∧
      TwoWayDict.setItem [('A', 'B'), ('B', 'A')] 'A' 'C' =
        .ok [('A', 'C'), ('C', 'A')] ∧
      TwoWayDict.get [('A', 'C'), ('C', 'A')] 'B' = .error .keyError) := by
  refine ⟨?_, ?_, fun α d => rfl, by decide⟩
  · intro α _ d k v hinv hk hv
    exact setItem_contract d k v hinv hk hv
  · intro α _ d k h
    unfold TwoWayDict.get
    rw [h]

/-- Witness for C8's amended theorem: overwrite set("A","C") on the state
{"A"↔"B"}. -/
theorem twoWayDict_contract_witness :
    twoWayInv ([('A', 'B'), ('B', 'A')] : TwoWayDict Char) ∧
    TwoWayDict.getVal ([('A', 'B'), ('B', 'A')] : TwoWayDict Char) 'A' ≠
      some 'A' ∧
    TwoWayDict.getVal ([('A', 'B'), ('B', 'A')] : TwoWayDict Char) 'C' ≠
      some 'C' ∧
    (∃ d3, TwoWayDict.setItem ([('A', 'B'), ('B', 'A')] : TwoWayDict Char)
        'A' 'C' = .ok d3 ∧
      TwoWayDict.getVal d3 'A' = some 'C' ∧
      TwoWayDict.getVal d3 'C' = some 'A' ∧
      (∀ x, TwoWayDict.getVal ([('A', 'B'), ('B', 'A')] : TwoWayDict Char)
          'A' = some x → x ≠ 'A' → x ≠ 'C' →
        TwoWayDict.getVal d3 x = none) ∧
      (∀ y, TwoWayDict.getVal ([('A', 'B'), ('B', 'A')] : TwoWayDict Char)
          'C' = some y → y ≠ 'A' → y ≠ 'C' →
        TwoWayDict.getVal d3 y = none) ∧
      (∀ j, j ≠ 'A' → j ≠ 'C' →
        TwoWayDict.getVal ([('A', 'B'), ('B', 'A')] : TwoWayDict Char) 'A' ≠
          some j →
        TwoWayDict.getVal ([('A', 'B'), ('B', 'A')] : TwoWayDict Char) 'C' ≠
          some j →
        TwoWayDict.getVal d3 j =
          TwoWayDict.getVal ([('A', 'B'), ('B', 'A')] : TwoWayDict Char) j)) := by
  have h1 : twoWayInv ([('A', 'B'), ('B', 'A')] : TwoWayDict Char) := by
    decide
  have h2 : TwoWayDict.getVal ([('A', 'B'), ('B', 'A')] : TwoWayDict Char)
      'A' ≠ some 'A' := by decide
  have h3 : TwoWayDict.getVal ([('A', 'B'), ('B', 'A')] : TwoWayDict Char)
      'C' ≠ some 'C' := by decide
  exact ⟨h1, h2, h3, twoWayDict_contract.1 Char _ 'A' 'C' h1 h2 h3⟩

/-- Claim C8 counterexample: with "A" sitting in a self-pair, set("A","B")
does not perform the documented removal-and-insertion — the removal deletes
the same raw key twice and the second delete raises `KeyError`. -/
theorem setItem_selfpair_keyerror :
    TwoWayDict.setItem (TwoWayDict.empty Char) 'A' 'A' = .ok [('A', 'A')] ∧
    TwoWayDict.setItem [('A', 'A')] 'A' 'B' = .error .keyError := by decide
